import Mathlib

/-!
Verification development for the recipe PDF → markdown converter
(src/Convert/pdf_to_obsidian_converter.py, class RecipeExtractor).

The Python code is shallowly embedded over plain lists of characters
(a Python str is modelled as a `List Char`). Every regex used by the
source is used only with a fixed pattern, so each regex operation is
embedded as the function the pattern denotes (leftmost-match search,
greedy/lazy quantifier behavior worked out per pattern and recorded in
comments). Character classes from Python (`\s`, `\w`, `\d`, `[A-Z]` under
IGNORECASE) are modelled on code points; the Unicode-only extensions of
those classes beyond the sets written here do not affect any claim.
Numeric capture groups (`\d+`) are stored as their integer value
(`Option Nat`), mirroring the code's later `int(...)` conversion; the
empty-string sentinel used by the code for an absent field corresponds
to `none`.
-/

set_option maxRecDepth 8000
set_option maxHeartbeats 1000000

/-- Python `\s` / `str.strip()` whitespace, by code point: space, tab, LF,
VT, FF, CR, FS, GS, RS, US, NEL, NBSP and the Unicode space separators. -/
def pySpace (c : Char) : Bool :=
  decide (c.toNat = 32 ∨ c.toNat = 9 ∨ c.toNat = 10 ∨ c.toNat = 11 ∨ c.toNat = 12 ∨
    c.toNat = 13 ∨ c.toNat = 28 ∨ c.toNat = 29 ∨ c.toNat = 30 ∨ c.toNat = 31 ∨
    c.toNat = 133 ∨ c.toNat = 160 ∨ c.toNat = 5760 ∨
    (8192 ≤ c.toNat ∧ c.toNat ≤ 8202) ∨ c.toNat = 8232 ∨ c.toNat = 8233 ∨
    c.toNat = 8239 ∨ c.toNat = 8287 ∨ c.toNat = 12288)

/-- ASCII letter: `[A-Z]` under `re.IGNORECASE` (source patterns use ASCII text). -/
def isAsciiLetter (c : Char) : Bool :=
  decide ((65 ≤ c.toNat ∧ c.toNat ≤ 90) ∨ (97 ≤ c.toNat ∧ c.toNat ≤ 122))

/-- ASCII digit: `[0-9]` and `\d` in the source patterns. -/
def isAsciiDigit (c : Char) : Bool :=
  decide (48 ≤ c.toNat ∧ c.toNat ≤ 57)

/-- Python `\w` (word character) restricted to ASCII: alphanumeric or underscore. -/
def isWordChar (c : Char) : Bool :=
  decide ((48 ≤ c.toNat ∧ c.toNat ≤ 57) ∨ (65 ≤ c.toNat ∧ c.toNat ≤ 90) ∨
    (97 ≤ c.toNat ∧ c.toNat ≤ 122) ∨ c.toNat = 95)

/-- The filesystem-illegal characters removed first by `sanitize_filename`:
the class `[<>:"/\\|?*]`, here by code point (60 62 58 34 47 92 124 63 42). -/
def isBadFsChar (c : Char) : Bool :=
  decide (c.toNat = 60 ∨ c.toNat = 62 ∨ c.toNat = 58 ∨ c.toNat = 34 ∨ c.toNat = 47 ∨
    c.toNat = 92 ∨ c.toNat = 124 ∨ c.toNat = 63 ∨ c.toNat = 42)

/-- Replace a whitespace character by a plain space, keep anything else. -/
def toSpaceChar (c : Char) : Char := if pySpace c then ' ' else c

/-- Lowercase a string (Python `str.lower()` on the ASCII text involved). -/
def lowerStr (s : List Char) : List Char := s.map Char.toLower

/-- Does the second list start with the first (literal match)? -/
def strStartsWith : List Char → List Char → Bool
  | [], _ => true
  | _ :: _, [] => false
  | p :: ps, c :: cs => decide (p = c) && strStartsWith ps cs

/-- Contiguous-substring test (Python `pat in s`; true for the empty pattern). -/
def isSubstr (p : List Char) : List Char → Bool
  | [] => strStartsWith p []
  | c :: rest => strStartsWith p (c :: rest) || isSubstr p rest

/-- Case-insensitive prefix test (the source always compares lowercased text). -/
def startsWithCI (p s : List Char) : Bool := strStartsWith (lowerStr p) (lowerStr s)

/-- Case-insensitive substring test. -/
def containsCI (p s : List Char) : Bool := isSubstr (lowerStr p) (lowerStr s)

/-- Index of the leftmost case-insensitive occurrence of `pat` (the position at
which `re.search` with a literal pattern under IGNORECASE matches). -/
def findCI (pat : List Char) : List Char → Option Nat
  | [] => if strStartsWith (lowerStr pat) [] then some 0 else none
  | c :: rest =>
    if strStartsWith (lowerStr pat) (lowerStr (c :: rest)) then some 0
    else (findCI pat rest).map (· + 1)

/-- Python `str.strip()`: drop whitespace from both ends. -/
def pyStrip (s : List Char) : List Char :=
  ((s.dropWhile pySpace).reverse.dropWhile pySpace).reverse

/-- Collapse runs of adjacent spaces to a single space. Combined with
`toSpaceChar` this is exactly `re.sub(r"\s+", " ", ·)`: every maximal
whitespace run becomes one space. -/
def squeezeSpaces : List Char → List Char
  | [] => []
  | [c] => [c]
  | c :: d :: rest =>
    if c = ' ' ∧ d = ' ' then squeezeSpaces (d :: rest)
    else c :: squeezeSpaces (d :: rest)

/-- Step 1 of the parser (line 124): `text = re.sub(r"\s+", " ", text.strip())`. -/
def normalizeWS (t : List Char) : List Char :=
  squeezeSpaces ((pyStrip t).map toSpaceChar)

/-- Python `str.split("\n")`: always one more part than there are newlines. -/
def splitNL : List Char → List (List Char)
  | [] => [[]]
  | c :: rest =>
    if c = '\n' then [] :: splitNL rest
    else
      match splitNL rest with
      | h :: tl => (c :: h) :: tl
      | [] => [[c]]

/-- Python `" ".join(xs)`. -/
def spaceJoin (xs : List (List Char)) : List Char := List.intercalate [' '] xs

/-- Integer value of a captured digit string (Python `int(...)`). -/
def digitsVal (ds : List Char) : Nat :=
  ds.foldl (fun a c => a * 10 + (c.toNat - 48)) 0

/-- Decimal rendering of a number for the markdown output. -/
def natStr (n : Nat) : List Char := (Nat.repr n).toList

/-- Lexicographic comparison of strings by code point (Python string `<=`). -/
def strLe : List Char → List Char → Bool
  | [], _ => true
  | _ :: _, [] => false
  | a :: as, b :: bs =>
    if a.toNat = b.toNat then strLe as bs else decide (a.toNat < b.toNat)

/-- The ordering relation used for `sorted(...)` on tag strings. -/
def StrLeP (a b : List Char) : Prop := strLe a b = true

instance : DecidableRel StrLeP := fun a b => inferInstanceAs (Decidable (strLe a b = true))

/-- Boolean check that a list of strings is sorted ascending (adjacent chain). -/
def strSortedB : List (List Char) → Bool
  | [] => true
  | [_] => true
  | a :: b :: rest => strLe a b && strSortedB (b :: rest)

/-! ### Keywords and static data of the source -/

/-- Section marker literal used case-insensitively. -/
def kwIngredients : List Char := "ingredients".toList

/-- Section marker literal used case-insensitively. -/
def kwDirections : List Char := "directions".toList

/-- Section marker literal used case-insensitively (the source writes PRO TIP). -/
def kwProTip : List Char := "pro tip".toList

/-- Literal of the calories pattern. -/
def kwCalories : List Char := "calories".toList

/-- Literal stem of the protein pattern (`grams?`). -/
def kwGram : List Char := "gram".toList

/-- Literal of the protein pattern. -/
def kwOf : List Char := "of".toList

/-- Literal of the protein pattern. -/
def kwProtein : List Char := "protein".toList

/-- Meal/food-type alternation of the first title pattern, in source order. -/
def mealKws : List (List Char) :=
  ["breakfast".toList, "lunch".toList, "dinner".toList, "pizza".toList,
   "sandwich".toList, "burrito".toList, "bagel".toList, "waffle".toList,
   "pancake".toList, "salad".toList, "bowl".toList, "plate".toList, "wrap".toList]

/-- Protein alternation of the second title pattern, in source order. -/
def proteinKws : List (List Char) :=
  ["chicken".toList, "turkey".toList, "beef".toList, "pork".toList, "fish".toList]

/-- Alternation of the common-recipe-names fallback pattern, in source order. -/
def fbKws : List (List Char) :=
  ["burrito".toList, "pizza".toList, "sandwich".toList, "bagel".toList,
   "waffle".toList, "pancake".toList, "salad".toList, "bowl".toList, "plate".toList]

/-- Imperative cooking verbs that disqualify a title candidate. -/
def verbRejects : List (List Char) :=
  ["throw".toList, "add".toList, "cook".toList, "place".toList]

/-- The static keyword taxonomy `self.ingredient_tags`, in source (dict insertion)
order: tag name paired with its keyword triggers. -/
def ingredientTags : List (List Char × List (List Char)) :=
  [("chicken".toList, ["chicken".toList, "chicken breast".toList, "chicken tender".toList]),
   ("turkey".toList, ["turkey".toList, "turkey bacon".toList, "turkey sausage".toList,
      "turkey chorizo".toList, "turkey pepperoni".toList]),
   ("beef".toList, ["beef".toList, "ground beef".toList, "steak".toList]),
   ("pork".toList, ["pork".toList, "bacon".toList, "ham".toList]),
   ("fish".toList, ["fish".toList, "salmon".toList, "tuna".toList, "cod".toList]),
   ("egg".toList, ["egg".toList, "egg white".toList, "eggs".toList]),
   ("breakfast".toList, ["breakfast".toList, "bagel".toList, "waffle".toList,
      "pancake".toList, "burrito".toList, "scramble".toList]),
   ("lunch".toList, ["lunch".toList, "sandwich".toList, "wrap".toList, "salad".toList]),
   ("dinner".toList, ["dinner".toList, "pasta".toList, "rice".toList, "stir fry".toList]),
   ("snack".toList, ["snack".toList, "bar".toList, "bite".toList, "ball".toList]),
   ("pizza".toList, ["pizza".toList, "flatbread".toList, "pita".toList]),
   ("pasta".toList, ["pasta".toList, "noodle".toList, "spaghetti".toList, "penne".toList]),
   ("sandwich".toList, ["sandwich".toList, "sub".toList, "hoagie".toList]),
   ("burrito".toList, ["burrito".toList, "wrap".toList, "tortilla".toList]),
   ("bagel".toList, ["bagel".toList]),
   ("waffle".toList, ["waffle".toList]),
   ("pancake".toList, ["pancake".toList]),
   ("salad".toList, ["salad".toList, "bowl".toList]),
   ("airfryer".toList, ["air fryer".toList, "airfryer".toList]),
   ("baked".toList, ["baked".toList, "oven".toList, "broil".toList]),
   ("grilled".toList, ["grilled".toList, "grill".toList]),
   ("lowcarb".toList, ["low carb".toList, "keto".toList, "carb balance".toList]),
   ("highprotein".toList, ["protein".toList, "high protein".toList]),
   ("fatfree".toList, ["fat free".toList, "fat-free".toList])]

/-! ### The recipe record -/

/-- The `recipe_data` dict built by `parse_recipe_data`. The code keeps
`calories`/`protein` as captured digit strings with `""` for absent; they are
modelled by their integer value with `none` for absent (the code only ever
tests truthiness and converts with `int`). -/
structure RecipeData where
  title : List Char
  calories : Option Nat
  protein : Option Nat
  ingredients : List (List Char)
  directions : List (List Char)
  pro_tips : List (List Char)
deriving DecidableEq

/-! ### Title extraction

Pattern 1 is `([A-Z][^.!?\n]*(?:meal-keyword)[^.!?\n]*)` under
IGNORECASE|MULTILINE. At a given start the leading class consumes one letter;
both `[^.!?\n]*` stars and the keyword stay inside the maximal run of
non-`.!?\n` characters that follows, and the trailing greedy star always
extends the match to the end of that run, whichever keyword occurrence
backtracking settles on. So the pattern matches at a position iff the position
holds a letter and some meal keyword occurs (case-insensitively) inside the
following run, and the captured group is the letter plus the whole run. -/

/-- Characters allowed by `[^.!?\n]`. -/
def allowedTitleChar (c : Char) : Bool :=
  !(decide (c = '.') || decide (c = '!') || decide (c = '?') || decide (c = '\n'))

/-- Characters of `[a-z\s]` under IGNORECASE: letters and whitespace. -/
def letterOrWsChar (c : Char) : Bool := isAsciiLetter c || pySpace c

/-- Attempt of title pattern 1 at one position (see section comment). -/
def p1At (s : List Char) : Option (List Char) :=
  match s with
  | [] => none
  | c :: rest =>
    if isAsciiLetter c = true ∧
       (mealKws.any fun kw => containsCI kw (rest.takeWhile allowedTitleChar)) = true
    then some (c :: rest.takeWhile allowedTitleChar)
    else none

/-- Leftmost match of title pattern 1 (`re.search` scans positions left to right). -/
def searchP1 : List Char → Option (List Char)
  | [] => none
  | c :: rest =>
    match p1At (c :: rest) with
    | some g => some g
    | none => searchP1 rest

/-- Body of title pattern 2 `([A-Z][a-z\s]+(?:protein-keyword)[^.!?\n]*)` after
its leading letter: the greedy `[a-z\s]+` backtracks from its maximal extent,
so the largest split `q ≥ 1` wins for which the first `q` characters are
letters/whitespace and a protein keyword matches right after; the keyword
alternation is tried in source order there; the greedy tail then takes the
maximal run of non-`.!?\n` characters after the keyword. -/
def p2Pick (rest : List Char) : Option (List Char) :=
  ((List.range (rest.length + 1)).reverse.filterMap fun q =>
    if 1 ≤ q ∧ (rest.take q).all letterOrWsChar = true then
      match proteinKws.filter (fun kw => startsWithCI kw (rest.drop q)) with
      | kw :: _ =>
        some (rest.take (q + kw.length +
          ((rest.drop (q + kw.length)).takeWhile allowedTitleChar).length))
      | [] => none
    else none).head?

/-- Attempt of title pattern 2 at one position. -/
def p2At (s : List Char) : Option (List Char) :=
  match s with
  | [] => none
  | c :: rest =>
    if isAsciiLetter c = true then (p2Pick rest).map (fun g => c :: g) else none

/-- Leftmost match of title pattern 2. -/
def searchP2 : List Char → Option (List Char)
  | [] => none
  | c :: rest =>
    match p2At (c :: rest) with
    | some g => some g
    | none => searchP2 rest

/-- Attempt of title pattern 3 `^([A-Z][^.!?\n]{10,50})` at one position:
a letter followed by at least 10 allowed characters; the greedy bounded
quantifier captures at most 50 of them. -/
def p3At (s : List Char) : Option (List Char) :=
  match s with
  | [] => none
  | c :: rest =>
    if isAsciiLetter c = true ∧ 10 ≤ (rest.takeWhile allowedTitleChar).length
    then some (c :: (rest.takeWhile allowedTitleChar).take 50)
    else none

/-- Positions after a newline for the MULTILINE `^` of pattern 3. -/
def searchP3Aux : List Char → Option (List Char)
  | [] => none
  | c :: rest =>
    if c = '\n' then
      match p3At rest with
      | some g => some g
      | none => searchP3Aux rest
    else searchP3Aux rest

/-- Leftmost match of title pattern 3: `^` anchors at the start of the text or
right after a newline (MULTILINE), tried left to right. -/
def searchP3 (s : List Char) : Option (List Char) :=
  match p3At s with
  | some g => some g
  | none => searchP3Aux s

/-- Strip one leading numeric prefix: `re.sub(r"^[0-9]+\.?\s*", "", ·)` (also the
`^\d+\.?\s*` cleanup of directions/tips steps). The anchored match needs at
least one digit; it then removes the maximal digit run, one optional period
and any following whitespace. -/
def stripLeadingNum (s : List Char) : List Char :=
  match s with
  | [] => []
  | c :: _ =>
    if isAsciiDigit c then
      let r := s.dropWhile isAsciiDigit
      let r2 := if r.head? = some '.' then r.tail else r
      r2.dropWhile pySpace
    else s

/-- Title candidate cleanup and checks (lines 136-143): strip, remove a numeric
prefix, require length above 5 and no leading imperative cooking verb. -/
def vetCandidate (g : List Char) : Option (List Char) :=
  let cand := stripLeadingNum (pyStrip g)
  if 5 < cand.length ∧ (verbRejects.any fun v => startsWithCI v cand) = false
  then some cand else none

/-- The ordered title-pattern loop: first pattern whose match survives the
checks wins; a match that fails the checks falls through to the next pattern. -/
def tryPatterns (t : List Char) : Option (List Char) :=
  match (searchP1 t).bind vetCandidate with
  | some x => some x
  | none =>
    match (searchP2 t).bind vetCandidate with
    | some x => some x
    | none => (searchP3 t).bind vetCandidate

/-- Characters of the fallback class `[A-Za-z\s.]`. -/
def fbClassChar (c : Char) : Bool := isAsciiLetter c || pySpace c || decide (c = '.')

/-- Attempt of the fallback pattern `([A-Za-z\s.]+(?:common-name))` at one
position: the greedy class run backtracks from its maximal extent, so the
largest `k ≥ 1` wins for which the first `k` characters are in the class and a
keyword (source order) matches right after; the group is those characters plus
the matched keyword text. -/
def fbAt (s : List Char) : Option (List Char) :=
  ((List.range (s.length + 1)).reverse.filterMap fun k =>
    if 1 ≤ k ∧ (s.take k).all fbClassChar = true then
      match fbKws.filter (fun kw => startsWithCI kw (s.drop k)) with
      | kw :: _ => some (s.take (k + kw.length))
      | [] => none
    else none).head?

/-- First match of the fallback `re.findall` (the code takes element 0). -/
def searchFallback : List Char → Option (List Char)
  | [] => none
  | c :: rest =>
    match fbAt (c :: rest) with
    | some g => some g
    | none => searchFallback rest

/-- Title extraction (lines 127-153): the pattern loop, then the
common-recipe-names fallback, else the empty string. -/
def extractTitle (t : List Char) : List Char :=
  match tryPatterns t with
  | some ti => ti
  | none =>
    match searchFallback t with
    | some g => pyStrip g
    | none => []

/-! ### Nutrition numbers

`(\d+)\s*calories` under IGNORECASE: at the leftmost matching position the
greedy `\d+` captures the maximal digit run; backtracking cannot shorten it
(the next character would be a digit, not whitespace or a letter), and the
greedy `\s*` likewise consumes the whole whitespace run before the literal. -/

/-- Attempt of the calories pattern at one position; yields the digit group. -/
def calAt (s : List Char) : Option (List Char) :=
  match s with
  | [] => none
  | c :: _ =>
    if isAsciiDigit c = true then
      let ds := s.takeWhile isAsciiDigit
      if startsWithCI kwCalories ((s.drop ds.length).dropWhile pySpace) = true
      then some ds else none
    else none

/-- Leftmost match of the calories pattern (line 156). -/
def searchCal : List Char → Option (List Char)
  | [] => none
  | c :: rest =>
    match calAt (c :: rest) with
    | some ds => some ds
    | none => searchCal rest

/-- Attempt of `(\d+)\s*grams?\s*of\s*protein` at one position. The optional
`s?` is greedy; declining it can never rescue a failed match (the `\s*of`
that follows cannot start at a letter s), so the embedding only takes it. -/
def protAt (s : List Char) : Option (List Char) :=
  match s with
  | [] => none
  | c :: _ =>
    if isAsciiDigit c = true then
      let ds := s.takeWhile isAsciiDigit
      let r1 := (s.drop ds.length).dropWhile pySpace
      if startsWithCI kwGram r1 = true then
        let r2 := r1.drop kwGram.length
        let r3 := if r2.head? = some 's' ∨ r2.head? = some 'S' then r2.tail else r2
        let r4 := r3.dropWhile pySpace
        if startsWithCI kwOf r4 = true then
          let r5 := (r4.drop kwOf.length).dropWhile pySpace
          if startsWithCI kwProtein r5 = true then some ds else none
        else none
      else none
    else none

/-- Leftmost match of the protein pattern (line 160). -/
def searchProt : List Char → Option (List Char)
  | [] => none
  | c :: rest =>
    match protAt (c :: rest) with
    | some ds => some ds
    | none => searchProt rest

/-! ### Section regions

`Marker\s*(.*?)(?:NextMarker|$)` under IGNORECASE|DOTALL: the search anchors at
the leftmost case-insensitive occurrence of the marker literal; the greedy
`\s*` consumes the whitespace run after it (backtracking cannot help, the next
literal starts with a letter); the lazy group then grows until the next-marker
literal matches, or to the end of the text when it never does. -/

/-- Region captured by `Ingredients\s*(.*?)(?:Directions|$)` (lines 165-167). -/
def ingredientsRegionOf (t : List Char) : Option (List Char) :=
  match findCI kwIngredients t with
  | none => none
  | some i =>
    let rest := (t.drop (i + kwIngredients.length)).dropWhile pySpace
    match findCI kwDirections rest with
    | some j => some (rest.take j)
    | none => some rest

/-- Region captured by `Directions\s*(.*?)(?:PRO TIP|$)` (lines 180-182). -/
def directionsRegionOf (t : List Char) : Option (List Char) :=
  match findCI kwDirections t with
  | none => none
  | some i =>
    let rest := (t.drop (i + kwDirections.length)).dropWhile pySpace
    match findCI kwProTip rest with
    | some j => some (rest.take j)
    | none => some rest

/-- Region captured by `PRO TIP[S]?\s*(.*?)$` (lines 195-197): after the
marker, a greedy optional S, the greedy whitespace run, then the lazy group
runs to the first position where `$` holds, i.e. the end of the text or just
before one trailing newline. -/
def proTipsRegionOf (t : List Char) : Option (List Char) :=
  match findCI kwProTip t with
  | none => none
  | some i =>
    let r1 := t.drop (i + kwProTip.length)
    let r2 := if r1.head? = some 's' ∨ r1.head? = some 'S' then r1.tail else r1
    let r3 := r2.dropWhile pySpace
    some (if r3.getLast? = some '\n' then r3.dropLast else r3)

/-! ### Splitting a region into numbered steps

`re.findall(r"(\d+\..*?)(?=\d+\.|$)", region, re.DOTALL)`: a match must start
with a maximal digit run followed by a period; the lazy tail stops at the
first later position where another digit-run-plus-period begins (the
zero-width lookahead), or at the end. Scanning resumes exactly at that
lookahead position, so the matches tile the region from its first
digit-period start to the end. -/

/-- Does the list start with one or more digits followed by a period? -/
def digitDot (s : List Char) : Bool :=
  match s with
  | [] => false
  | c :: rest =>
    isAsciiDigit c &&
      (match rest.dropWhile isAsciiDigit with
       | d :: _ => decide (d = '.')
       | [] => false)

/-- Index of the first suffix starting with digits-then-period. -/
def findDD : List Char → Option Nat
  | [] => none
  | c :: rest =>
    if digitDot (c :: rest) then some 0 else (findDD rest).map (· + 1)

/-- Cut successive `\d+\. ...` chunks, each running up to the next
digits-then-period start or the end. Invariant: `s` starts with
digits-then-period; the fuel (initially the region length) dominates the
number of chunks, as every chunk consumes at least two characters. -/
def stepsFrom : Nat → List Char → List (List Char)
  | 0, _ => []
  | fuel + 1, s =>
    let ds := (s.takeWhile isAsciiDigit).length
    match findDD (s.drop (ds + 1)) with
    | none => [s]
    | some j => s.take (ds + 1 + j) :: stepsFrom fuel (s.drop (ds + 1 + j))

/-- All matches of `(\d+\..*?)(?=\d+\.|$)` over a region, in order. -/
def findSteps (s : List Char) : List (List Char) :=
  match findDD s with
  | none => []
  | some i => stepsFrom s.length (s.drop i)

/-- Per-step cleanup shared by directions and pro tips (lines 187-192,
202-207): strip; skip if empty; remove the leading number; strip again and
keep the result (the code appends it even when it has become empty). -/
def cleanStep (st : List Char) : Option (List Char) :=
  let s := pyStrip st
  if s = [] then none else some (pyStrip (stripLeadingNum s))

/-! ### Ingredient lines -/

/-- One leading bullet/number marker: `re.sub(r"^[•\-\*\d]+\.?\s*", "", ·)`. -/
def bulletChar (c : Char) : Bool :=
  decide (c = '•') || decide (c = '-') || decide (c = '*') || isAsciiDigit c

/-- Strip a leading bullet/number marker run, one optional period and following
whitespace; the anchored class needs at least one marker character to fire. -/
def stripBullet (s : List Char) : List Char :=
  match s with
  | [] => []
  | c :: _ =>
    if bulletChar c then
      let r := s.dropWhile bulletChar
      let r2 := if r.head? = some '.' then r.tail else r
      r2.dropWhile pySpace
    else s

/-- Per-line ingredient cleanup (lines 171-177): strip; skip empty lines and
lines opening (case-insensitively) with the other section markers; strip the
leading bullet/number marker; keep if still non-empty. -/
def ingLine (line : List Char) : Option (List Char) :=
  let l := pyStrip line
  if l = [] then none
  else if startsWithCI kwDirections l || startsWithCI kwProTip l then none
  else
    let l2 := stripBullet l
    if l2 = [] then none else some l2

/-! ### The parser -/

/-- Ingredient extraction (lines 164-177): the captured region is split on
newlines and each line cleaned. -/
def extractIngredients (t : List Char) : List (List Char) :=
  match ingredientsRegionOf t with
  | none => []
  | some region => (splitNL region).filterMap ingLine

/-- Direction extraction (lines 179-192). -/
def extractDirections (t : List Char) : List (List Char) :=
  match directionsRegionOf t with
  | none => []
  | some region => (findSteps region).filterMap cleanStep

/-- Pro-tip extraction (lines 194-207). -/
def extractProTips (t : List Char) : List (List Char) :=
  match proTipsRegionOf t with
  | none => []
  | some region => (findSteps region).filterMap cleanStep

/-- `parse_recipe_data` (lines 112-209): normalize whitespace, then run the
field extractors over the flattened text. -/
def parseRecipeData (text : List Char) : RecipeData :=
  let t := normalizeWS text
  { title := extractTitle t
    calories := (searchCal t).map digitsVal
    protein := (searchProt t).map digitsVal
    ingredients := extractIngredients t
    directions := extractDirections t
    pro_tips := extractProTips t }

/-! ### Tag inference -/

/-- The lowercased haystack of `generate_tags` (lines 216-222):
`" ".join([title, " ".join(ingredients), " ".join(directions)]).lower()`. -/
def allText (r : RecipeData) : List Char :=
  lowerStr (spaceJoin [r.title, spaceJoin r.ingredients, spaceJoin r.directions])

/-- Taxonomy pass (lines 225-229): a tag fires when one of its keywords occurs
in the haystack; tags are collected in taxonomy order. -/
def taxonomyTags (r : RecipeData) : List (List Char) :=
  (ingredientTags.filter fun p =>
    p.2.any fun kw => isSubstr (lowerStr kw) (allText r)).map Prod.fst

/-- Calorie threshold rule (lines 232-237): below 300 low, above 500 high. -/
def calorieTags (r : RecipeData) : List (List Char) :=
  match r.calories with
  | none => []
  | some n =>
    if n < 300 then ["lowcalorie".toList]
    else if 500 < n then ["highcalorie".toList]
    else []

/-- Protein threshold rule (lines 239-242): above 40 grams. -/
def proteinTags (r : RecipeData) : List (List Char) :=
  match r.protein with
  | none => []
  | some n => if 40 < n then ["highprotein".toList] else []

/-- `generate_tags` (lines 211-248): the set of fired tags — deduplicated
union of the three rule families — with the sentinel when nothing fired,
returned sorted ascending. -/
def generateTags (r : RecipeData) : List (List Char) :=
  let fired := taxonomyTags r ++ calorieTags r ++ proteinTags r
  let tags := if fired = [] then ["recipe".toList] else fired.dedup
  List.insertionSort StrLeP tags

/-! ### The renderer -/

/-- The tag line: space-joined `#tag` tokens. -/
def tagLine (tags : List (List Char)) : List Char :=
  spaceJoin (tags.map fun tg => '#' :: tg)

/-- Heading of the nutrition section, without its trailing blank line. -/
def nutritionHeading : List Char := "## Nutrition Information".toList

/-- Nutrition block (lines 259-265), empty when both fields are absent. -/
def nutritionSection (r : RecipeData) : List Char :=
  if r.calories.isSome || r.protein.isSome then
    nutritionHeading ++ "\n\n".toList
    ++ (match r.calories with
        | some n => "- **Calories:** ".toList ++ natStr n ++ "\n".toList
        | none => [])
    ++ (match r.protein with
        | some n => "- **Protein:** ".toList ++ natStr n ++ "g\n".toList
        | none => [])
    ++ "\n".toList
  else []

/-- Ingredients block (lines 268-272). -/
def ingredientsSection (r : RecipeData) : List Char :=
  if r.ingredients = [] then []
  else
    "## Ingredients\n\n".toList
    ++ (r.ingredients.map fun ing => "- ".toList ++ ing ++ "\n".toList).flatten
    ++ "\n".toList

/-- Directions block (lines 275-279), renumbered 1..N. -/
def directionsSection (r : RecipeData) : List Char :=
  if r.directions = [] then []
  else
    "## Directions\n\n".toList
    ++ ((r.directions.enumFrom 1).map fun p =>
          natStr p.1 ++ ". ".toList ++ p.2 ++ "\n".toList).flatten
    ++ "\n".toList

/-- Pro-tips block (lines 282-286). -/
def proTipsSection (r : RecipeData) : List Char :=
  if r.pro_tips = [] then []
  else
    "## Pro Tips\n\n".toList
    ++ (r.pro_tips.map fun tip => "- ".toList ++ tip ++ "\n".toList).flatten
    ++ "\n".toList

/-- `create_markdown` (lines 250-288): heading, tag line, then the sections
in order; the `+=` chain is the concatenation of the conditional blocks. -/
def createMarkdown (r : RecipeData) : List Char :=
  "# ".toList ++ r.title ++ "\n\n".toList
  ++ tagLine (generateTags r) ++ "\n\n".toList
  ++ nutritionSection r ++ ingredientsSection r ++ directionsSection r
  ++ proTipsSection r

/-! ### Filename sanitation -/

/-- Lines 293-296 of `sanitize_filename`: drop filesystem-illegal characters,
drop everything but word characters, whitespace and hyphens, collapse
whitespace and strip, replace spaces by underscores. -/
def sanitizeStage4 (t : List Char) : List Char :=
  (pyStrip (squeezeSpaces
      (((t.filter fun c => !isBadFsChar c).filter
          fun c => isWordChar c || pySpace c || decide (c = '-')).map toSpaceChar))).map
    fun c => if c = ' ' then '_' else c

/-- Lines 299-300 of `sanitize_filename`: truncate past 50 characters,
dropping the trailing underscores the cut may leave (`rstrip("_")`). -/
def sanitizeStage5 (t : List Char) : List Char :=
  if 50 < (sanitizeStage4 t).length then
    (((sanitizeStage4 t).take 50).reverse.dropWhile fun c => decide (c = '_')).reverse
  else sanitizeStage4 t

/-- `sanitize_filename` (lines 290-302): the cleanup stages, then the
`recipe` default for an empty result. -/
def sanitizeFilename (t : List Char) : List Char :=
  if sanitizeStage5 t = [] then ("recipe").toList else sanitizeStage5 t

/-! ### Concrete inputs used by the claims -/

/-- Raw text of the spec's end-to-end example (section 8), taken verbatim. -/
def rawExample : List Char :=
  ("Turkey Bacon Breakfast Burrito ... 350 calories ... 28 grams of protein ... Ingredients 2 eggs 2 turkey bacon strips Directions 1. Cook bacon 2. Scramble eggs PRO TIP Use low-sodium bacon").toList

/-- A raw text whose ingredients region holds two bulleted entries on their own
lines, as produced by a typical extraction. -/
def exBullets : List Char :=
  ("Ingredients\n• 2 eggs\n• 2 turkey bacon strips\nDirections").toList

/-- The ingredients region the parser captures from `exBullets` after
whitespace flattening (note the two bullets and the trailing space). -/
def exBulletsRegion : List Char := ("• 2 eggs • 2 turkey bacon strips ").toList

/-- A raw text whose pro-tip is not number-prefixed. -/
def exTipText : List Char := ("PRO TIP Use foil").toList

/-- The pro-tips region the parser captures from `exTipText`. -/
def exTipRegion : List Char := ("Use foil").toList

/-- Witness record: no taxonomy keyword, calories and protein inside the
neutral ranges. -/
def rwDefault : RecipeData :=
  { title := ("zzz").toList, calories := some 400, protein := some 30,
    ingredients := [], directions := [], pro_tips := [] }

/-- Witness record: calories just below 300, protein just above 40. -/
def rwBoundary : RecipeData :=
  { title := [], calories := some 299, protein := some 41,
    ingredients := [], directions := [], pro_tips := [] }

/-- Witness record: only calories present. -/
def rwCalOnly : RecipeData :=
  { title := [], calories := some 350, protein := none,
    ingredients := [], directions := [], pro_tips := [] }

/-- Witness record: the word protein in the title, numeric protein absent. -/
def rwProteinWord : RecipeData :=
  { title := ("protein shake").toList, calories := none, protein := none,
    ingredients := [], directions := [], pro_tips := [] }

/-- Witness title for filename sanitation. -/
def twSanitize : List Char := ("My Recipe-1").toList

/-- Does the list contain, at any position, digits followed by a period?
(The condition for `(\d+\..*?)(?=\d+\.|$)` to have any match at all.) -/
def hasDD : List Char → Bool
  | [] => false
  | c :: rest => digitDot (c :: rest) || hasDD rest

/-! ## Helper lemmas -/

theorem dropWhile_eq_self_of {p : Char → Bool} {s : List Char}
    (h : ∀ a ∈ s, p a = false) : s.dropWhile p = s := by
  cases s with
  | nil => rfl
  | cons c rest => simp [List.dropWhile_cons, h c (List.mem_cons_self c rest)]

theorem pyStrip_eq_self_of {s : List Char} (h : ∀ a ∈ s, pySpace a = false) :
    pyStrip s = s := by
  unfold pyStrip
  rw [dropWhile_eq_self_of h, dropWhile_eq_self_of, List.reverse_reverse]
  intro a ha
  exact h a (List.mem_reverse.mp ha)

theorem pyStrip_subset (s : List Char) : pyStrip s ⊆ s := by
  intro a ha
  unfold pyStrip at ha
  rw [List.mem_reverse] at ha
  have h2 := (List.dropWhile_sublist (l := (s.dropWhile pySpace).reverse) pySpace).subset ha
  rw [List.mem_reverse] at h2
  exact (List.dropWhile_sublist pySpace).subset h2

theorem pyStrip_length_le (s : List Char) : (pyStrip s).length ≤ s.length := by
  unfold pyStrip
  calc ((s.dropWhile pySpace).reverse.dropWhile pySpace).reverse.length
      = ((s.dropWhile pySpace).reverse.dropWhile pySpace).length := List.length_reverse _
    _ ≤ (s.dropWhile pySpace).reverse.length :=
        (List.dropWhile_sublist pySpace).length_le
    _ = (s.dropWhile pySpace).length := List.length_reverse _
    _ ≤ s.length := (List.dropWhile_sublist pySpace).length_le

theorem mem_squeezeSpaces {s : List Char} {a : Char}
    (h : a ∈ squeezeSpaces s) : a ∈ s := by
  induction s using squeezeSpaces.induct with
  | case1 => exact absurd h (List.not_mem_nil a)
  | case2 c => exact h
  | case3 c d rest hcd ih =>
    rw [squeezeSpaces, if_pos hcd] at h
    exact List.mem_cons_of_mem c (ih h)
  | case4 c d rest hcd ih =>
    rw [squeezeSpaces, if_neg hcd] at h
    rcases List.mem_cons.mp h with h1 | h2
    · exact h1 ▸ List.mem_cons_self c _
    · exact List.mem_cons_of_mem c (ih h2)

theorem squeezeSpaces_length_le (s : List Char) :
    (squeezeSpaces s).length ≤ s.length := by
  induction s using squeezeSpaces.induct with
  | case1 => simp [squeezeSpaces]
  | case2 c => simp [squeezeSpaces]
  | case3 c d rest hcd ih =>
    rw [squeezeSpaces, if_pos hcd]
    exact Nat.le_succ_of_le ih
  | case4 c d rest hcd ih =>
    rw [squeezeSpaces, if_neg hcd]
    simpa using ih

theorem squeezeSpaces_eq_self_of {s : List Char} (h : ∀ a ∈ s, a ≠ ' ') :
    squeezeSpaces s = s := by
  induction s using squeezeSpaces.induct with
  | case1 => rfl
  | case2 c => rfl
  | case3 c d rest hcd ih =>
    exact absurd hcd.1 (h c (List.mem_cons_self c _))
  | case4 c d rest hcd ih =>
    rw [squeezeSpaces, if_neg hcd, ih]
    intro a ha
    exact h a (List.mem_cons_of_mem c ha)

theorem splitNL_eq_single {s : List Char} (h : ('\n') ∉ s) : splitNL s = [s] := by
  induction s with
  | nil => rfl
  | cons c rest ih =>
    have hc : ¬ c = '\n' := fun hc => h (hc ▸ List.mem_cons_self c rest)
    have hrest : ('\n') ∉ rest := fun hr => h (List.mem_cons_of_mem c hr)
    rw [splitNL, if_neg hc, ih hrest]

theorem mem_normalizeWS {t : List Char} {a : Char} (h : a ∈ normalizeWS t) :
    a = ' ' ∨ pySpace a = false := by
  unfold normalizeWS at h
  rcases List.mem_map.mp (mem_squeezeSpaces h) with ⟨b, _, hb⟩
  unfold toSpaceChar at hb
  by_cases hs : pySpace b = true
  · left
    rw [← hb, if_pos hs]
  · right
    rw [← hb, if_neg hs]
    exact Bool.eq_false_iff.mpr hs

theorem normalizeWS_no_newline (t : List Char) : ('\n') ∉ normalizeWS t := by
  intro h
  rcases mem_normalizeWS h with h1 | h2
  · exact absurd h1 (by decide)
  · exact absurd h2 (by decide)

theorem ingredientsRegionOf_subset {t r : List Char}
    (h : ingredientsRegionOf t = some r) : r ⊆ t := by
  unfold ingredientsRegionOf at h
  cases hf : findCI kwIngredients t with
  | none => rw [hf] at h; exact absurd h (by simp)
  | some i =>
    rw [hf] at h
    simp only [] at h
    have hsub : (t.drop (i + kwIngredients.length)).dropWhile pySpace ⊆ t := by
      intro a ha
      exact List.drop_subset _ t ((List.dropWhile_sublist pySpace).subset ha)
    cases hj : findCI kwDirections ((t.drop (i + kwIngredients.length)).dropWhile pySpace) with
    | none =>
      rw [hj] at h
      injection h with h
      exact h ▸ hsub
    | some j =>
      rw [hj] at h
      injection h with h
      intro a ha
      exact hsub (List.take_subset j _ (h ▸ ha))

theorem findDD_eq_none_of_hasDD {s : List Char} (h : hasDD s = false) :
    findDD s = none := by
  induction s with
  | nil => rfl
  | cons c rest ih =>
    unfold hasDD at h
    rw [Bool.or_eq_false_iff] at h
    unfold findDD
    rw [if_neg (by simp [h.1]), ih h.2]
    rfl

/-! ## The claims -/

/-- C3: for every input text the parsed ingredients list has at most one
element: whitespace normalization removes every newline before the captured
ingredients region is split on newlines, so the whole region is one line. -/
theorem c3_ingredients_at_most_one (text : List Char) :
    (parseRecipeData text).ingredients.length ≤ 1 := by
  show (extractIngredients (normalizeWS text)).length ≤ 1
  unfold extractIngredients
  cases hr : ingredientsRegionOf (normalizeWS text) with
  | none => simp
  | some region =>
    have hnl : ('\n') ∉ region := fun hmem =>
      normalizeWS_no_newline text (ingredientsRegionOf_subset hr hmem)
    simp only []
    rw [splitNL_eq_single hnl]
    cases h : ingLine region <;> simp [List.filterMap_cons, h]

/-- C2 (amended): the parser does not split the ingredients region at bullet
or number markers; the whole flattened region is processed as one candidate
line (at most one entry, the region cleaned of a single leading marker run). -/
theorem c2_flattened_region_single_entry (t r : List Char)
    (hr : ingredientsRegionOf (normalizeWS t) = some r) :
    (parseRecipeData t).ingredients = [r].filterMap ingLine ∧
      (parseRecipeData t).ingredients.length ≤ 1 := by
  have hnl : ('\n') ∉ r := fun hmem =>
    normalizeWS_no_newline t (ingredientsRegionOf_subset hr hmem)
  have h1 : (parseRecipeData t).ingredients = [r].filterMap ingLine := by
    show extractIngredients (normalizeWS t) = _
    simp only [extractIngredients, hr, splitNL_eq_single hnl]
  refine ⟨h1, ?_⟩
  rw [h1]
  cases h : ingLine r <;> simp [List.filterMap_cons, h]

/-- C2 (counterexample): a region with two bulleted entries comes back as one
single ingredient entry, not one entry per bulleted item. -/
theorem c2_bullet_split_counterexample :
    (parseRecipeData exBullets).ingredients =
      [("2 eggs • 2 turkey bacon strips").toList] ∧
    (parseRecipeData exBullets).ingredients ≠
      [("2 eggs").toList, ("2 turkey bacon strips").toList] := by
  decide

/-- C2 (witness): the amended theorem applied to the concrete bulleted text. -/
theorem c2_flattened_region_single_entry_witness :
    ingredientsRegionOf (normalizeWS exBullets) = some exBulletsRegion ∧
    (parseRecipeData exBullets).ingredients =
      [("2 eggs • 2 turkey bacon strips").toList] := by
  refine ⟨by decide, ?_⟩
  rw [(c2_flattened_region_single_entry exBullets exBulletsRegion (by decide)).1]
  decide

/-- C7: a pro-tips region holding no digits-followed-by-period start anywhere
yields no pro tips at all: un-numbered tips are silently dropped. -/
theorem c7_unnumbered_tips_dropped (t r : List Char)
    (hr : proTipsRegionOf (normalizeWS t) = some r) (hno : hasDD r = false) :
    (parseRecipeData t).pro_tips = [] := by
  show extractProTips (normalizeWS t) = []
  simp only [extractProTips, hr, findSteps, findDD_eq_none_of_hasDD hno,
    List.filterMap_nil]

/-- C7 (witness): a tip without a number prefix is dropped. -/
theorem c7_unnumbered_tips_dropped_witness :
    proTipsRegionOf (normalizeWS exTipText) = some exTipRegion ∧
    hasDD exTipRegion = false ∧
    (parseRecipeData exTipText).pro_tips = [] := by
  refine ⟨by decide, by decide, ?_⟩
  exact c7_unnumbered_tips_dropped exTipText exTipRegion (by decide) (by decide)

theorem strLe_total : ∀ a b : List Char, strLe a b = true ∨ strLe b a = true
  | [], _ => Or.inl rfl
  | _ :: _, [] => Or.inr rfl
  | a :: as, b :: bs => by
    by_cases h : a.toNat = b.toNat
    · unfold strLe
      rw [if_pos h, if_pos h.symm]
      exact strLe_total as bs
    · unfold strLe
      rw [if_neg h, if_neg (fun hh => h hh.symm)]
      rcases Nat.lt_or_ge a.toNat b.toNat with hlt | hge
      · exact Or.inl (decide_eq_true hlt)
      · exact Or.inr (decide_eq_true (Nat.lt_of_le_of_ne hge (fun hh => h hh.symm)))

theorem strLe_trans :
    ∀ a b c : List Char, strLe a b = true → strLe b c = true → strLe a c = true
  | [], _, _, _, _ => rfl
  | _ :: _, [], _, h, _ => by exact absurd h (by simp [strLe])
  | _ :: _, _ :: _, [], _, h => by exact absurd h (by simp [strLe])
  | a :: as, b :: bs, c :: cs, h1, h2 => by
    unfold strLe at h1 h2 ⊢
    by_cases hab : a.toNat = b.toNat <;> by_cases hbc : b.toNat = c.toNat
    · rw [if_pos hab] at h1
      rw [if_pos hbc] at h2
      rw [if_pos (hab.trans hbc)]
      exact strLe_trans as bs cs h1 h2
    · rw [if_pos hab] at h1
      rw [if_neg hbc] at h2
      rw [decide_eq_true_eq] at h2
      rw [if_neg (fun hh : a.toNat = c.toNat => hbc ((hab.symm.trans hh))),
        decide_eq_true_eq]
      omega
    · rw [if_neg hab] at h1
      rw [decide_eq_true_eq] at h1
      rw [if_pos hbc] at h2
      rw [if_neg (fun hh : a.toNat = c.toNat => hab (hh.trans hbc.symm)),
        decide_eq_true_eq]
      omega
    · rw [if_neg hab] at h1
      rw [if_neg hbc] at h2
      rw [decide_eq_true_eq] at h1 h2
      rw [if_neg (fun hh : a.toNat = c.toNat => by omega), decide_eq_true_eq]
      omega

theorem strSortedB_of_sorted :
    ∀ {l : List (List Char)}, List.Sorted StrLeP l → strSortedB l = true
  | [], _ => rfl
  | [_], _ => rfl
  | a :: b :: rest, h => by
    rw [List.sorted_cons] at h
    unfold strSortedB
    rw [h.1 b (List.mem_cons_self b rest), strSortedB_of_sorted h.2]
    rfl

theorem generateTags_sortedB (r : RecipeData) : strSortedB (generateTags r) = true := by
  apply strSortedB_of_sorted
  exact @List.sorted_insertionSort _ StrLeP _ ⟨strLe_total⟩
    ⟨fun a b c => strLe_trans a b c⟩ _

theorem generateTags_ne_nil (r : RecipeData) : generateTags r ≠ [] := by
  simp only [generateTags]
  intro h
  have hlen := (List.perm_insertionSort StrLeP
    (if taxonomyTags r ++ calorieTags r ++ proteinTags r = []
     then [("recipe").toList]
     else (taxonomyTags r ++ calorieTags r ++ proteinTags r).dedup)).length_eq
  rw [h] at hlen
  by_cases hf : taxonomyTags r ++ calorieTags r ++ proteinTags r = []
  · rw [if_pos hf] at hlen
    exact absurd hlen.symm (by simp)
  · rw [if_neg hf] at hlen
    exact hf (((List.dedup_eq_nil _).mp (List.length_eq_zero.mp hlen.symm)))

theorem mem_generateTags_iff {r : RecipeData} {x : List Char} :
    x ∈ generateTags r ↔
      ((taxonomyTags r ++ calorieTags r ++ proteinTags r = [] ∧ x = ("recipe").toList) ∨
       x ∈ taxonomyTags r ∨ x ∈ calorieTags r ∨ x ∈ proteinTags r) := by
  simp only [generateTags]
  rw [(List.perm_insertionSort StrLeP _).mem_iff]
  by_cases hf : taxonomyTags r ++ calorieTags r ++ proteinTags r = []
  · rw [if_pos hf]
    rw [List.append_eq_nil] at hf
    rw [List.append_eq_nil] at hf
    constructor
    · intro hx
      exact Or.inl ⟨by simp [hf.1.1, hf.1.2, hf.2], List.mem_singleton.mp hx⟩
    · rintro (⟨_, hx⟩ | hx | hx | hx)
      · exact List.mem_singleton.mpr hx
      · rw [hf.1.1] at hx; exact absurd hx (List.not_mem_nil x)
      · rw [hf.1.2] at hx; exact absurd hx (List.not_mem_nil x)
      · rw [hf.2] at hx; exact absurd hx (List.not_mem_nil x)
  · rw [if_neg hf, List.mem_dedup, List.mem_append, List.mem_append]
    constructor
    · rintro ((hx | hx) | hx)
      · exact Or.inr (Or.inl hx)
      · exact Or.inr (Or.inr (Or.inl hx))
      · exact Or.inr (Or.inr (Or.inr hx))
    · rintro (⟨hnil, _⟩ | hx | hx | hx)
      · exact absurd hnil hf
      · exact Or.inl (Or.inl hx)
      · exact Or.inl (Or.inr hx)
      · exact Or.inr hx

theorem mem_taxonomy_names {r : RecipeData} {x : List Char}
    (h : x ∈ taxonomyTags r) : x ∈ ingredientTags.map Prod.fst := by
  unfold taxonomyTags at h
  rcases List.mem_map.mp h with ⟨p, hp, hpx⟩
  exact List.mem_map.mpr ⟨p, (List.mem_filter.mp hp).1, hpx⟩

/-- C5: the tag list is never empty and always sorted ascending; when no
taxonomy keyword occurs in the haystack and neither numeric threshold fires,
the result is exactly the sentinel list. -/
theorem c5_tags_nonempty_sorted_default (r : RecipeData) :
    (generateTags r ≠ [] ∧ strSortedB (generateTags r) = true) ∧
    ((∀ p ∈ ingredientTags, ∀ kw ∈ p.2, isSubstr (lowerStr kw) (allText r) = false) →
     (∀ n, r.calories = some n → 300 ≤ n ∧ n ≤ 500) →
     (∀ n, r.protein = some n → n ≤ 40) →
     generateTags r = [("recipe").toList]) := by
  refine ⟨⟨generateTags_ne_nil r, generateTags_sortedB r⟩, ?_⟩
  intro h1 h2 h3
  have htax : taxonomyTags r = [] := by
    unfold taxonomyTags
    rw [List.map_eq_nil_iff, List.filter_eq_nil_iff]
    intro p hp hc
    rcases List.any_eq_true.mp hc with ⟨kw, hkw, hsub⟩
    rw [h1 p hp kw hkw] at hsub
    exact absurd hsub (by decide)
  have hcal : calorieTags r = [] := by
    cases hc : r.calories with
    | none => simp [calorieTags, hc]
    | some n =>
      have hn := h2 n hc
      simp only [calorieTags, hc]
      rw [if_neg (by omega), if_neg (by omega)]
  have hprot : proteinTags r = [] := by
    cases hc : r.protein with
    | none => simp [proteinTags, hc]
    | some n =>
      have hn := h3 n hc
      simp only [proteinTags, hc]
      rw [if_neg (by omega)]
  simp only [generateTags, htax, hcal, hprot, List.append_nil, List.nil_append]
  rw [if_pos trivial]
  rfl

/-- C5 (witness): a record firing no rule gets exactly the sentinel tag. -/
theorem c5_tags_nonempty_sorted_default_witness :
    generateTags rwDefault = [("recipe").toList] := by
  apply (c5_tags_nonempty_sorted_default rwDefault).2
  · decide
  · intro n hn
    injection hn with hn
    omega
  · intro n hn
    injection hn with hn
    omega

/-- C6: with calories present, lowcalorie is in the tags exactly below 300 and
highcalorie exactly above 500 (neither between 300 and 500 inclusive); with
protein present, the threshold rule fires exactly above 40, and firing puts
highprotein into the tags. -/
theorem c6_nutrition_thresholds (r : RecipeData) :
    (∀ n, r.calories = some n →
      (((("lowcalorie").toList ∈ generateTags r) ↔ n < 300) ∧
       ((("highcalorie").toList ∈ generateTags r) ↔ 500 < n))) ∧
    (∀ n, r.protein = some n →
      ((proteinTags r = [("highprotein").toList] ↔ 40 < n) ∧
       (40 < n → ("highprotein").toList ∈ generateTags r))) := by
  have hprot_mem : ∀ x, x ∈ proteinTags r → x = ("highprotein").toList := by
    intro x hx
    cases hp : r.protein with
    | none => simp only [proteinTags, hp] at hx; exact absurd hx (List.not_mem_nil x)
    | some m =>
      simp only [proteinTags, hp] at hx
      by_cases hm : 40 < m
      · rw [if_pos hm] at hx
        exact List.mem_singleton.mp hx
      · rw [if_neg hm] at hx
        exact absurd hx (List.not_mem_nil x)
  constructor
  · intro n hn
    have hcal_iff : ∀ x : List Char, x ∈ calorieTags r ↔
        ((x = ("lowcalorie").toList ∧ n < 300) ∨
         (x = ("highcalorie").toList ∧ 500 < n)) := by
      intro x
      simp only [calorieTags, hn]
      by_cases h3 : n < 300
      · rw [if_pos h3]
        constructor
        · intro hx
          exact Or.inl ⟨List.mem_singleton.mp hx, h3⟩
        · rintro (⟨hx, _⟩ | ⟨_, h5⟩)
          · exact List.mem_singleton.mpr hx
          · omega
      · rw [if_neg h3]
        by_cases h5 : 500 < n
        · rw [if_pos h5]
          constructor
          · intro hx
            exact Or.inr ⟨List.mem_singleton.mp hx, h5⟩
          · rintro (⟨_, h3x⟩ | ⟨hx, _⟩)
            · omega
            · exact List.mem_singleton.mpr hx
        · rw [if_neg h5]
          constructor
          · intro hx
            exact absurd hx (List.not_mem_nil x)
          · rintro (⟨_, h3x⟩ | ⟨_, h5x⟩) <;> omega
    constructor
    · constructor
      · intro hmem
        rcases mem_generateTags_iff.mp hmem with ⟨_, hx⟩ | hx | hx | hx
        · exact absurd hx (by decide)
        · exact absurd (mem_taxonomy_names hx) (by decide)
        · rcases (hcal_iff _).mp hx with ⟨_, h⟩ | ⟨hx2, _⟩
          · exact h
          · exact absurd hx2 (by decide)
        · exact absurd (hprot_mem _ hx) (by decide)
      · intro h3
        exact mem_generateTags_iff.mpr (Or.inr (Or.inr (Or.inl
          ((hcal_iff _).mpr (Or.inl ⟨rfl, h3⟩)))))
    · constructor
      · intro hmem
        rcases mem_generateTags_iff.mp hmem with ⟨_, hx⟩ | hx | hx | hx
        · exact absurd hx (by decide)
        · exact absurd (mem_taxonomy_names hx) (by decide)
        · rcases (hcal_iff _).mp hx with ⟨hx2, _⟩ | ⟨_, h⟩
          · exact absurd hx2 (by decide)
          · exact h
        · exact absurd (hprot_mem _ hx) (by decide)
      · intro h5
        exact mem_generateTags_iff.mpr (Or.inr (Or.inr (Or.inl
          ((hcal_iff _).mpr (Or.inr ⟨rfl, h5⟩)))))
  · intro n hn
    constructor
    · simp only [proteinTags, hn]
      by_cases hm : 40 < n
      · rw [if_pos hm]
        exact ⟨fun _ => hm, fun _ => rfl⟩
      · rw [if_neg hm]
        constructor
        · intro hlist
          simp at hlist
        · intro h4
          exact absurd h4 hm
    · intro hm
      apply mem_generateTags_iff.mpr
      refine Or.inr (Or.inr (Or.inr ?_))
      simp only [proteinTags, hn]
      rw [if_pos hm]
      exact List.mem_singleton.mpr rfl

/-- C6 (witness): boundary-adjacent values 299 and 41 both fire. -/
theorem c6_nutrition_thresholds_witness :
    ("lowcalorie").toList ∈ generateTags rwBoundary ∧
    ("highprotein").toList ∈ generateTags rwBoundary := by
  constructor
  · exact (((c6_nutrition_thresholds rwBoundary).1 299 rfl).1).mpr (by omega)
  · exact (((c6_nutrition_thresholds rwBoundary).2 41 rfl).2) (by omega)

/-- C10: any record whose haystack contains the word protein receives the
highprotein tag from the taxonomy, independently of the numeric field. -/
theorem c10_protein_keyword_tag (r : RecipeData)
    (h : isSubstr (("protein").toList) (allText r) = true) :
    ("highprotein").toList ∈ generateTags r := by
  apply mem_generateTags_iff.mpr
  refine Or.inr (Or.inl ?_)
  unfold taxonomyTags
  apply List.mem_map.mpr
  refine ⟨(("highprotein").toList, [("protein").toList, ("high protein").toList]),
    ?_, rfl⟩
  apply List.mem_filter.mpr
  refine ⟨by decide, ?_⟩
  apply List.any_eq_true.mpr
  refine ⟨("protein").toList, by decide, ?_⟩
  rw [show lowerStr (("protein").toList) = ("protein").toList from by decide]
  exact h

/-- C10 (witness): the word protein in the title suffices although the numeric
protein field is absent. -/
theorem c10_protein_keyword_tag_witness :
    isSubstr (("protein").toList) (allText rwProteinWord) = true ∧
    ("highprotein").toList ∈ generateTags rwProteinWord := by
  exact ⟨by decide, c10_protein_keyword_tag rwProteinWord (by decide)⟩

/-- C4: the parser is total by construction (every embedded operation is a
total function); on the empty text it returns the record with every field
empty or absent. -/
theorem c4_parse_empty_text :
    parseRecipeData [] =
      { title := [], calories := none, protein := none,
        ingredients := [], directions := [], pro_tips := [] } := by
  decide

/-- C1 (counterexample): on the spec's end-to-end example text the parser does
not return the claimed ingredients and pro tips: the flattened region becomes
one ingredient entry whose leading quantity digit is eaten by the bullet
stripper, and the un-numbered tip is dropped. -/
theorem c1_example_counterexample :
    (parseRecipeData rawExample).ingredients ≠
      [("2 eggs").toList, ("2 turkey bacon strips").toList] ∧
    (parseRecipeData rawExample).pro_tips ≠ [("Use low-sodium bacon").toList] ∧
    (parseRecipeData rawExample).ingredients = [("eggs 2 turkey bacon strips").toList] ∧
    (parseRecipeData rawExample).pro_tips = [] := by
  decide

/-- C1 (amended): on the example text the title, calories, protein, directions
and tags come out as the spec says, but the ingredients are the single
flattened entry and the pro-tips list is empty. -/
theorem c1_example_amended :
    ((parseRecipeData rawExample).title = ("Turkey Bacon Breakfast Burrito").toList ∧
     (parseRecipeData rawExample).calories = some 350 ∧
     (parseRecipeData rawExample).protein = some 28) ∧
    ((parseRecipeData rawExample).ingredients = [("eggs 2 turkey bacon strips").toList] ∧
     (parseRecipeData rawExample).directions =
       [("Cook bacon").toList, ("Scramble eggs").toList] ∧
     (parseRecipeData rawExample).pro_tips = []) ∧
    (generateTags (parseRecipeData rawExample) =
       [("breakfast").toList, ("burrito").toList, ("egg").toList,
        ("pork").toList, ("turkey").toList] ∧
     ("turkey").toList ∈ generateTags (parseRecipeData rawExample) ∧
     ("breakfast").toList ∈ generateTags (parseRecipeData rawExample) ∧
     ("burrito").toList ∈ generateTags (parseRecipeData rawExample) ∧
     ("egg").toList ∈ generateTags (parseRecipeData rawExample) ∧
     strSortedB (generateTags (parseRecipeData rawExample)) = true) := by
  decide

theorem strStartsWith_refl_append (p t : List Char) :
    strStartsWith p (p ++ t) = true := by
  induction p with
  | nil => rfl
  | cons c cs ih => simp [strStartsWith, ih]

theorem isSubstr_of_startsWith {p s : List Char}
    (h : strStartsWith p s = true) : isSubstr p s = true := by
  cases s with
  | nil => exact h
  | cons c rest => simp [isSubstr, h]

theorem isSubstr_append_left (x : List Char) {p s : List Char}
    (h : isSubstr p s = true) : isSubstr p (x ++ s) = true := by
  induction x with
  | nil => exact h
  | cons c cs ih => simp [isSubstr, ih]

/-- C8: the rendered markdown always starts with the heading line, a blank
line, the tag line and a blank line; the nutrition section is emitted exactly
when calories or protein is present, and when emitted its heading occurs in
the output. -/
theorem c8_render_header_and_nutrition (r : RecipeData) :
    (∃ rest, createMarkdown r =
      ("# ").toList ++ r.title ++ ("\n\n").toList
        ++ tagLine (generateTags r) ++ ("\n\n").toList ++ rest) ∧
    ((nutritionSection r ≠ []) ↔
      (r.calories.isSome = true ∨ r.protein.isSome = true)) ∧
    ((r.calories.isSome = true ∨ r.protein.isSome = true) →
      isSubstr nutritionHeading (createMarkdown r) = true) := by
  refine ⟨⟨nutritionSection r ++ ingredientsSection r ++ directionsSection r
      ++ proTipsSection r, by simp [createMarkdown, List.append_assoc]⟩, ?_, ?_⟩
  · unfold nutritionSection
    by_cases hc : (r.calories.isSome || r.protein.isSome) = true
    · rw [if_pos hc]
      constructor
      · intro _
        have hc2 : r.calories.isSome = true ∨ r.protein.isSome = true := by
          simpa using hc
        exact hc2
      · intro _ hnil
        have h1 := (List.append_eq_nil.mp hnil).1
        have h2 := (List.append_eq_nil.mp h1).1
        have h3 := (List.append_eq_nil.mp h2).1
        have h4 := (List.append_eq_nil.mp h3).1
        exact absurd h4 (by decide)
    · rw [if_neg hc]
      constructor
      · intro h
        exact absurd rfl h
      · intro h
        apply absurd _ hc
        rcases h with h | h <;> rw [h] <;> simp
  · intro hpres
    have hc : (r.calories.isSome || r.protein.isSome) = true := by
      rcases hpres with h | h <;> simp [h]
    obtain ⟨tail, htail⟩ : ∃ tail, nutritionSection r = nutritionHeading ++ tail := by
      apply Exists.intro
      unfold nutritionSection
      rw [if_pos hc]
      simp only [List.append_assoc]
      rfl
    unfold createMarkdown
    rw [htail]
    simp only [List.append_assoc]
    apply isSubstr_append_left
    apply isSubstr_append_left
    apply isSubstr_append_left
    apply isSubstr_append_left
    apply isSubstr_append_left
    exact isSubstr_of_startsWith (strStartsWith_refl_append _ _)

/-- C8 (witness): a record with only calories present gets the nutrition
section and its heading occurs in the rendered output. -/
theorem c8_render_header_and_nutrition_witness :
    nutritionSection rwCalOnly ≠ [] ∧
    isSubstr nutritionHeading (createMarkdown rwCalOnly) = true := by
  constructor
  · exact ((c8_render_header_and_nutrition rwCalOnly).2.1).mpr (Or.inl rfl)
  · exact ((c8_render_header_and_nutrition rwCalOnly).2.2) (Or.inl rfl)

theorem map_id_of {f : Char → Char} {s : List Char} (h : ∀ a ∈ s, f a = a) :
    s.map f = s := by
  induction s with
  | nil => rfl
  | cons c rest ih =>
    rw [List.map_cons, h c (List.mem_cons_self c rest),
      ih fun a ha => h a (List.mem_cons_of_mem c ha)]

theorem word_not_pySpace {c : Char} (h : isWordChar c = true) : pySpace c = false := by
  rw [isWordChar, decide_eq_true_eq] at h
  rw [pySpace, decide_eq_false_iff_not]
  omega

theorem word_not_bad {c : Char} (h : isWordChar c = true) : isBadFsChar c = false := by
  rw [isWordChar, decide_eq_true_eq] at h
  rw [isBadFsChar, decide_eq_false_iff_not]
  omega

theorem word_ne_space {c : Char} (h : isWordChar c = true) : c ≠ ' ' := by
  intro hc
  subst hc
  exact absurd h (by decide)

theorem sanitizeStage4_chars (t : List Char) :
    ∀ c ∈ sanitizeStage4 t, (isWordChar c = true ∨ c = '-') ∧ c ≠ ' ' := by
  intro c hc
  unfold sanitizeStage4 at hc
  rcases List.mem_map.mp hc with ⟨a, ha, hac⟩
  by_cases has : a = ' '
  · rw [if_pos has] at hac
    rw [← hac]
    exact ⟨Or.inl (by decide), by decide⟩
  · rw [if_neg has] at hac
    subst hac
    have ha2 := pyStrip_subset _ ha
    have ha3 := mem_squeezeSpaces ha2
    rcases List.mem_map.mp ha3 with ⟨b, hb, hba⟩
    have hbpred := (List.mem_filter.mp hb).2
    by_cases hbs : pySpace b = true
    · exact absurd (by rw [← hba]; simp [toSpaceChar, hbs]) has
    · have hba2 : b = a := by
        rw [← hba]
        simp [toSpaceChar, hbs]
      subst hba2
      simp only [Bool.or_eq_true, decide_eq_true_eq] at hbpred
      rcases hbpred with (hw | hs) | hd
      · exact ⟨Or.inl hw, has⟩
      · exact absurd hs hbs
      · exact ⟨Or.inr hd, has⟩

theorem sanitizeStage5_subset (t : List Char) :
    sanitizeStage5 t ⊆ sanitizeStage4 t := by
  unfold sanitizeStage5
  by_cases h : 50 < (sanitizeStage4 t).length
  · rw [if_pos h]
    intro c hc
    rw [List.mem_reverse] at hc
    have h2 := (List.dropWhile_sublist (fun c => decide (c = '_'))).subset hc
    rw [List.mem_reverse] at h2
    exact List.take_subset _ _ h2
  · rw [if_neg h]
    exact fun c hc => hc

theorem sanitizeStage5_length_le (t : List Char) : (sanitizeStage5 t).length ≤ 50 := by
  unfold sanitizeStage5
  by_cases h : 50 < (sanitizeStage4 t).length
  · rw [if_pos h]
    calc ((((sanitizeStage4 t).take 50).reverse.dropWhile
            fun c => decide (c = '_')).reverse).length
        = (((sanitizeStage4 t).take 50).reverse.dropWhile
            fun c => decide (c = '_')).length := List.length_reverse _
      _ ≤ ((sanitizeStage4 t).take 50).reverse.length :=
          (List.dropWhile_sublist _).length_le
      _ = ((sanitizeStage4 t).take 50).length := List.length_reverse _
      _ ≤ 50 := by
          rw [List.length_take]
          exact min_le_left _ _
  · rw [if_neg h]
    omega

theorem sanitizeFilename_ne_nil (t : List Char) : sanitizeFilename t ≠ [] := by
  unfold sanitizeFilename
  by_cases h : sanitizeStage5 t = []
  · rw [if_pos h]
    decide
  · rw [if_neg h]
    exact h

theorem sanitizeFilename_length_le (t : List Char) :
    (sanitizeFilename t).length ≤ 50 := by
  unfold sanitizeFilename
  by_cases h : sanitizeStage5 t = []
  · rw [if_pos h]
    decide
  · rw [if_neg h]
    exact sanitizeStage5_length_le t

theorem sanitizeFilename_chars (t : List Char) :
    ∀ c ∈ sanitizeFilename t, isWordChar c = true ∨ c = '-' := by
  intro c hc
  unfold sanitizeFilename at hc
  by_cases h : sanitizeStage5 t = []
  · rw [if_pos h] at hc
    left
    have hall : ∀ a ∈ ("recipe").toList, isWordChar a = true := by decide
    exact hall c hc
  · rw [if_neg h] at hc
    exact (sanitizeStage4_chars t c (sanitizeStage5_subset t hc)).1

theorem sanitizeFilename_fixed {s : List Char} (hlen : s.length ≤ 50)
    (hne : s ≠ []) (hch : ∀ c ∈ s, isWordChar c = true ∨ c = '-') :
    sanitizeFilename s = s := by
  have hns : ∀ c ∈ s, pySpace c = false := by
    intro c hc
    rcases hch c hc with h | h
    · exact word_not_pySpace h
    · subst h
      decide
  have h4 : sanitizeStage4 s = s := by
    unfold sanitizeStage4
    have hf1 : s.filter (fun c => !isBadFsChar c) = s := by
      rw [List.filter_eq_self]
      intro a ha
      rcases hch a ha with h | h
      · rw [word_not_bad h]
        rfl
      · subst h
        decide
    rw [hf1]
    have hf2 : s.filter (fun c => isWordChar c || pySpace c || decide (c = '-')) = s := by
      rw [List.filter_eq_self]
      intro a ha
      rcases hch a ha with h | h
      · rw [h]
        rfl
      · subst h
        decide
    rw [hf2]
    have hm1 : List.map toSpaceChar s = s :=
      map_id_of fun a ha => by simp [toSpaceChar, hns a ha]
    rw [hm1]
    have hsq : squeezeSpaces s = s :=
      squeezeSpaces_eq_self_of fun a ha => by
        rcases hch a ha with h | h
        · exact word_ne_space h
        · subst h
          decide
    rw [hsq]
    rw [pyStrip_eq_self_of hns]
    exact map_id_of fun a ha => by
      rcases hch a ha with h | h
      · rw [if_neg (word_ne_space h)]
      · subst h
        decide
  have h5 : sanitizeStage5 s = s := by
    unfold sanitizeStage5
    rw [h4, if_neg (by omega)]
  unfold sanitizeFilename
  rw [h5, if_neg hne]

/-- C9: filename sanitation is idempotent on titles of at most 50 characters
made of word characters, spaces and hyphens. -/
theorem c9_sanitize_idempotent (t : List Char) (_hlen : t.length ≤ 50)
    (_hchars : ∀ c ∈ t, isWordChar c = true ∨ c = ' ' ∨ c = '-') :
    sanitizeFilename (sanitizeFilename t) = sanitizeFilename t :=
  sanitizeFilename_fixed (sanitizeFilename_length_le t) (sanitizeFilename_ne_nil t)
    (sanitizeFilename_chars t)

/-- C9 (witness): a short title of word characters, a space and a hyphen. -/
theorem c9_sanitize_idempotent_witness :
    twSanitize.length ≤ 50 ∧
    (∀ c ∈ twSanitize, isWordChar c = true ∨ c = ' ' ∨ c = '-') ∧
    sanitizeFilename (sanitizeFilename twSanitize) = sanitizeFilename twSanitize :=
  ⟨by decide, by decide, c9_sanitize_idempotent twSanitize (by decide) (by decide)⟩
